import Mathlib

/-!
Verification of the day-19 scanner-alignment program (src/2021/day19/main.py).

The Python program is shallowly embedded: points are integer triples,
numpy 3x3 matrices become `Mat3`, the `Scanner` class becomes a structure
whose derived fields (`graph`, `unique_edges_by_weight`) are filled in by
`build_graph`, and every code path that raises an uncaught exception in
Python (a failed `assert`, an out-of-range list index) is modelled by an
`Option` result whose `none` marks the abort.
-/

/-- A 3-D point: an ordered triple of integers, as parsed from the input. -/
structure Point3 where
  x : Int
  y : Int
  z : Int
deriving DecidableEq, Repr

/-- The origin (0, 0, 0); also numpy.zeros((3,1)) used for translations. -/
def Point3.zero : Point3 := ⟨0, 0, 0⟩

/-- Componentwise sum of two integer vectors. -/
def point_add (p q : Point3) : Point3 := ⟨p.x + q.x, p.y + q.y, p.z + q.z⟩

/-- Source `delta(point01, point02)`: the componentwise difference
`point02 - point01`. -/
def delta (point01 point02 : Point3) : Point3 :=
  ⟨point02.x - point01.x, point02.y - point01.y, point02.z - point01.z⟩

/-- Source `squared_distance(point01, point02) = dx**2 + dy**2 + dz**2`. -/
def squared_distance (point01 point02 : Point3) : Int :=
  (delta point01 point02).x ^ 2 + (delta point01 point02).y ^ 2 +
    (delta point01 point02).z ^ 2

/-- Source class `Edge`: endpoints are indices into a scanner's point list,
the weight is the squared distance between them. -/
structure Edge where
  i : Nat
  j : Nat
  weight : Int
deriving DecidableEq, Repr

def Edge.default : Edge := ⟨0, 0, 0⟩

/-- A 3x3 integer matrix (numpy array of dtype=int), row major. -/
structure Mat3 where
  m00 : Int
  m01 : Int
  m02 : Int
  m10 : Int
  m11 : Int
  m12 : Int
  m20 : Int
  m21 : Int
  m22 : Int
deriving DecidableEq, Repr

/-- numpy.identity(3, dtype=int). -/
def idMat : Mat3 := ⟨1, 0, 0, 0, 1, 0, 0, 0, 1⟩

/-- Matrix-vector product `M.dot(p)`. -/
def mat_vec (M : Mat3) (p : Point3) : Point3 :=
  ⟨M.m00 * p.x + M.m01 * p.y + M.m02 * p.z,
   M.m10 * p.x + M.m11 * p.y + M.m12 * p.z,
   M.m20 * p.x + M.m21 * p.y + M.m22 * p.z⟩

/-- Total list indexing with an explicit default, mirroring Python indexing
at positions that the program keeps in range. -/
def lget {α : Type} (d : α) : List α → Nat → α
  | [], _ => d
  | a :: _, 0 => a
  | _ :: l, n + 1 => lget d l n

/-- Source class `Scanner`.  `graph` is `None` until `build_graph` runs; we
model the uninitialised state as `[]`. -/
structure Scanner where
  index : Nat
  translation : Point3
  rotation_matrix : Mat3
  scans : List Point3
  graph : List (List Int)
  unique_edges_by_weight : List Edge
deriving DecidableEq, Repr

/-- `Scanner(index)`: identity rotation, zero translation, no scans. -/
def Scanner.init (index : Nat) : Scanner :=
  ⟨index, Point3.zero, idMat, [], [], []⟩

/-- Source `Scanner.get_scan(index)`:
`rotation_matrix.dot(scans[index]) + translation`. -/
def get_scan (s : Scanner) (index : Nat) : Point3 :=
  point_add (mat_vec s.rotation_matrix (lget Point3.zero s.scans index)) s.translation

/-- Source `Scanner.get_origin()`. -/
def get_origin (s : Scanner) : Point3 := s.translation

/-- Source `Scanner.set_rotation`. -/
def set_rotation (s : Scanner) (M : Mat3) : Scanner := { s with rotation_matrix := M }

/-- Source `Scanner.set_translation`. -/
def set_translation (s : Scanner) (t : Point3) : Scanner := { s with translation := t }

/-- Source `Scanner.reset_rotation`. -/
def reset_rotation (s : Scanner) : Scanner := { s with rotation_matrix := idMat }

/-- Source `Scanner.reset_translation`. -/
def reset_translation (s : Scanner) : Scanner := { s with translation := Point3.zero }

/-- Source `Scanner.add_scan(x, y, z)`: appends a point to `scans`. -/
def add_scan (s : Scanner) (p : Point3) : Scanner := { s with scans := s.scans ++ [p] }

/-- Source `Scanner.size()`. -/
def Scanner.size (s : Scanner) : Nat := s.scans.length

/-- Lexicographic order on points: the order of Python tuple comparison,
the key used by `sorted(..., key=lambda x: tuple(x))`. -/
def point_le (p q : Point3) : Prop :=
  p.x < q.x ∨ (p.x = q.x ∧ (p.y < q.y ∨ (p.y = q.y ∧ p.z ≤ q.z)))

instance : DecidableRel point_le := fun p q => by
  unfold point_le; infer_instance

instance : IsTotal Point3 point_le :=
  ⟨by intro p q; unfold point_le; omega⟩

instance : IsTrans Point3 point_le :=
  ⟨by intro p q r; unfold point_le; omega⟩

/-- Comparison of edges by weight, the key of
`sorted(self.unique_edges_by_weight, key=lambda edge: edge.weight)`. -/
def edge_le (e f : Edge) : Prop := e.weight ≤ f.weight

instance : DecidableRel edge_le := fun e f => by
  unfold edge_le; infer_instance

instance : IsTotal Edge edge_le :=
  ⟨by intro e f; unfold edge_le; omega⟩

instance : IsTrans Edge edge_le :=
  ⟨by intro e f g; unfold edge_le; omega⟩

/-- Sorting a point list ascending by tuple order.  Python list.sort is
stable; ties under `point_le` are equal points, so any sort that is sorted
and a permutation produces the same list, and `insertionSort` with this
reflexive total order is itself stable. -/
def sort_points (l : List Point3) : List Point3 := List.insertionSort point_le l

/-- Stable sort of edges ascending by weight (`insertionSort` with a
reflexive total preorder is stable, like Python list.sort). -/
def sort_edges (l : List Edge) : List Edge := List.insertionSort edge_le l

/-- The N x N matrix of pairwise squared distances of `build_graph`:
entry (i, j) is `squared_distance(scans[i], scans[j])`.  The Python loop
fills `graph[index01][index02]` and `graph[index02][index01]` for
`index01 <= index02`, which yields exactly this matrix. -/
def graph_matrix (scans : List Point3) : List (List Int) :=
  scans.map (fun p => scans.map (fun q => squared_distance p q))

/-- Entry (i, j) of a stored graph, 0 outside the filled range. -/
def graphGet (g : List (List Int)) (i j : Nat) : Int :=
  lget 0 (lget [] g i) j

/-- The edge list of `build_graph` before sorting: for each `index01` and
each `index02` in `range(index01, N)`, an `Edge(index01, index02, d)` when
the squared distance `d` is positive.  The inner `filterMap` over
`range N` keeps exactly the indices `index01 <= index02 < N`, in
ascending order, as Python range(index01, N) does. -/
def edges_unsorted (scans : List Point3) : List Edge :=
  (List.range scans.length).flatMap fun index01 =>
    (List.range scans.length).filterMap fun index02 =>
      if index01 ≤ index02 then
        let d := squared_distance (lget Point3.zero scans index01)
          (lget Point3.zero scans index02)
        if 0 < d then some ⟨index01, index02, d⟩ else none
      else none

/-- Source `Scanner.build_graph()`: sorts `scans` by tuple order, then
recomputes the distance matrix and the weight-sorted edge list. -/
def build_graph (s : Scanner) : Scanner :=
  let scans' := sort_points s.scans
  { s with
    scans := scans'
    graph := graph_matrix scans'
    unique_edges_by_weight := sort_edges (edges_unsorted scans') }

/-- Source `Scanner.get_scans()`: every point mapped through the current
transform, sorted by tuple order. -/
def get_scans (s : Scanner) : List Point3 :=
  sort_points ((List.range s.scans.length).map (get_scan s))

/-!
The correspondence matcher (`SubGraphIsomorphism` and
`find_subgraph_isomorphism`).  A correspondence map (Python dict with
insertion order) is an association list with unique keys.
-/

/-- Source `SubGraphIsomorphism.get_map(i01)`: dict lookup. -/
def get_map : List (Nat × Nat) → Nat → Option Nat
  | [], _ => none
  | (a, b) :: rest, k => if a = k then some b else get_map rest k

/-- Source `SubGraphIsomorphism.add(j01, j02)`: dict assignment (replace
the value of an existing key in place, else append). -/
def iso_add : List (Nat × Nat) → Nat → Nat → List (Nat × Nat)
  | [], k, v => [(k, v)]
  | (a, b) :: rest, k, v =>
      if a = k then (a, v) :: rest else (a, b) :: iso_add rest k v

/-- Source `SubGraphIsomorphism.test_edge_addition(j01, j02)`: an already
mapped key must keep its value; a fresh pair must agree with every mapped
pair on the two distance graphs. -/
def test_edge_addition (g1 g2 : List (List Int)) (m : List (Nat × Nat))
    (j01 j02 : Nat) : Bool :=
  match get_map m j01 with
  | some v => decide (v = j02)
  | none => m.all fun p => decide (graphGet g1 p.1 j01 = graphGet g2 p.2 j02)

/-- One iteration of the matcher's inner `while` loop body for a popped
candidate `m`: returns the updated sticky `mapped` flag and the candidate
maps this iteration appends to `new_maps`, in append order (the two
keep-unchanged cases, the two tested extensions, then the final
`new_maps.append(map)` that runs only when `mapped` is still false). -/
def step_map (g1 g2 : List (List Int)) (i01 j01 i02 j02 : Nat)
    (mapped : Bool) (m : List (Nat × Nat)) : Bool × List (List (Nat × Nat)) :=
  let c1 : Bool := decide (get_map m i01 = some i02) && decide (get_map m j01 = some j02)
  let c2 : Bool := decide (get_map m i01 = some j02) && decide (get_map m j01 = some i02)
  let ext : List (List (Nat × Nat)) :=
    if (get_map m i01).isNone || (get_map m j01).isNone then
      (if test_edge_addition g1 g2 m i01 i02 then
        let m1 := iso_add m i01 i02
        if test_edge_addition g1 g2 m1 j01 j02 then [iso_add m1 j01 j02] else []
      else []) ++
      (if test_edge_addition g1 g2 m i01 j02 then
        let m1 := iso_add m i01 j02
        if test_edge_addition g1 g2 m1 j01 i02 then [iso_add m1 j01 i02] else []
      else [])
    else []
  let mapped' := mapped || c1 || c2 || !ext.isEmpty
  let contrib := (if c1 then [m] else []) ++ (if c2 then [m] else []) ++ ext ++
    (if mapped' then [] else [m])
  (mapped', contrib)

/-- The matcher's inner `while` loop: `maps.pop()` takes the last element,
so the stack argument here is the maps list already reversed; `new_maps`
segments are concatenated in pop order. -/
def process_stack (g1 g2 : List (List Int)) (i01 j01 i02 j02 : Nat) :
    List (List (Nat × Nat)) → Bool → Bool × List (List (Nat × Nat))
  | [], mapped => (mapped, [])
  | m :: rest, mapped =>
      let r1 := step_map g1 g2 i01 j01 i02 j02 mapped m
      let r2 := process_stack g1 g2 i01 j01 i02 j02 rest r1.1
      (r2.1, r1.2 ++ r2.2)

/-- Processing one matched edge pair: drain `maps` through the `while`
loop; if no candidate absorbed the pair, seed the two single-edge maps
(the first seed goes back on the drained `maps`, the second is appended to
`new_maps`, then `maps.extend(new_maps)`). -/
def process_edge_pair (g1 g2 : List (List Int))
    (maps : List (List (Nat × Nat))) (edge01 edge02 : Edge) :
    List (List (Nat × Nat)) :=
  let r := process_stack g1 g2 edge01.i edge01.j edge02.i edge02.j maps.reverse false
  if r.1 then r.2
  else
    [iso_add (iso_add [] edge01.i edge02.i) edge01.j edge02.j] ++ r.2 ++
      [iso_add (iso_add [] edge01.i edge02.j) edge01.j edge02.i]

/-- The two-pointer advance of the matcher's first phase:
`while edge02.weight < edge01.weight and index02 + 1 < len(...)`, written
with structural fuel so that it evaluates by kernel reduction; the loop
runs at most `bs.length - 1 - i` times, so any fuel of at least
`bs.length` reaches the loop's exit condition. -/
def advance02_go (bs : List Edge) (w : Int) : Nat → Nat → Nat
  | 0, i => i
  | fuel + 1, i =>
      if h : i + 1 < bs.length then
        if (bs.get ⟨i, Nat.lt_of_succ_lt h⟩).weight < w then
          advance02_go bs w fuel (i + 1)
        else i
      else i

/-- The pointer position after the advance loop. -/
def advance02 (bs : List Edge) (w : Int) (i : Nat) : Nat :=
  advance02_go bs w bs.length i

/-- The merge-join of the matcher's first phase over scanner01's edge list,
carrying the persistent pointer into scanner02's edge list. -/
def matched_edges_aux (bs : List Edge) : List Edge → Nat → List (Edge × Edge)
  | [], _ => []
  | edge01 :: rest, i =>
      let i' := advance02 bs edge01.weight i
      let edge02 := lget Edge.default bs i'
      let tail := matched_edges_aux bs rest i'
      if edge01.weight = edge02.weight then (edge01, edge02) :: tail else tail

/-- All matched edge pairs of the first phase. -/
def matched_edges (as bs : List Edge) : List (Edge × Edge) :=
  matched_edges_aux bs as 0

/-- Source `find_subgraph_isomorphism(scanner01, scanner02)`.  The very
first statement reads `scanner02.unique_edges_by_weight[0]`; on an empty
edge list Python raises IndexError, modelled by `none`.  Otherwise the
matched edge pairs are folded through the candidate-map search and the
first candidate of maximal size is returned (an empty map when no
candidate exists). -/
def find_subgraph_isomorphism (s1 s2 : Scanner) : Option (List (Nat × Nat)) :=
  match s2.unique_edges_by_weight with
  | [] => none
  | _ :: _ =>
    let matched := matched_edges s1.unique_edges_by_weight s2.unique_edges_by_weight
    let maps := matched.foldl
      (fun acc pr => process_edge_pair s1.graph s2.graph acc pr.1 pr.2) []
    match maps with
    | [] => some []
    | m0 :: rest =>
        some (rest.foldl (fun best m => if best.length < m.length then m else best) m0)

/-!
The transform solver `orient_02_to_01`.

The Python rotation-recovery loop iterates over all ordered pairs of
mapped correspondences with boolean flags `x_rotated`, `y_rotated`,
`z_rotated`; each flag is set at the first pair of the iteration that
qualifies for its axis, and the whole pass is guarded by `if i01 != i02:`
on the outer pair.  Since each axis keeps the first qualifying pair of
the same iteration order independently of the other two, the single pass
equals three independent first-match scans, one per axis; any failed
`assert` aborts the run, modelled by `none`.
-/

/-- All ordered pairs of mapped correspondences in the iteration order of
the two nested loops over `isomorphisim.map.items()`. -/
def map_pairs (m : List (Nat × Nat)) : List ((Nat × Nat) × (Nat × Nat)) :=
  m.flatMap fun p => m.map fun q => (p, q)

/-- The A-frame delta of one ordered pair of correspondences:
`delta(scanner01.scans[i01], scanner01.scans[j01])`. -/
def delta01 (scansA : List Point3) (pq : (Nat × Nat) × (Nat × Nat)) : Point3 :=
  delta (lget Point3.zero scansA pq.1.1) (lget Point3.zero scansA pq.2.1)

/-- The B-frame delta of one ordered pair of correspondences:
`delta(scanner02.scans[i02], scanner02.scans[j02])`. -/
def delta02 (scansB : List Point3) (pq : (Nat × Nat) × (Nat × Nat)) : Point3 :=
  delta (lget Point3.zero scansB pq.1.2) (lget Point3.zero scansB pq.2.2)

/-- The x-axis guard of rotation recovery: the outer `if i01 != i02:`
together with `abs(dx01) > 0 and abs(dx01) != abs(dy01) and
abs(dx01) != abs(dz01)`. -/
def qualifies_x (scansA : List Point3) (pq : (Nat × Nat) × (Nat × Nat)) : Bool :=
  let d := delta01 scansA pq
  decide (pq.1.1 ≠ pq.1.2) && decide (0 < |d.x|) && decide (|d.x| ≠ |d.y|) &&
    decide (|d.x| ≠ |d.z|)

/-- The y-axis guard, `abs(dy01)` against the other two deltas. -/
def qualifies_y (scansA : List Point3) (pq : (Nat × Nat) × (Nat × Nat)) : Bool :=
  let d := delta01 scansA pq
  decide (pq.1.1 ≠ pq.1.2) && decide (0 < |d.y|) && decide (|d.y| ≠ |d.x|) &&
    decide (|d.y| ≠ |d.z|)

/-- The z-axis guard, `abs(dz01)` against the other two deltas. -/
def qualifies_z (scansA : List Point3) (pq : (Nat × Nat) × (Nat × Nat)) : Bool :=
  let d := delta01 scansA pq
  decide (pq.1.1 ≠ pq.1.2) && decide (0 < |d.z|) && decide (|d.z| ≠ |d.x|) &&
    decide (|d.z| ≠ |d.y|)

/-- Row 0 of the rotation matrix from the deltas of the chosen x pair:
`assert abs(dx01) in {abs(dx02), abs(dy02), abs(dz02)}` (modelled as
`none` on failure), then the matching entry is the floor quotient
(`//`, `Int.fdiv`) of the B delta by `dx01`; the other entries stay 0. -/
def row_x (d1 d2 : Point3) : Option Point3 :=
  if |d1.x| = |d2.x| then some ⟨Int.fdiv d2.x d1.x, 0, 0⟩
  else if |d1.x| = |d2.y| then some ⟨0, Int.fdiv d2.y d1.x, 0⟩
  else if |d1.x| = |d2.z| then some ⟨0, 0, Int.fdiv d2.z d1.x⟩
  else none

/-- Row 1, from the chosen y pair. -/
def row_y (d1 d2 : Point3) : Option Point3 :=
  if |d1.y| = |d2.x| then some ⟨Int.fdiv d2.x d1.y, 0, 0⟩
  else if |d1.y| = |d2.y| then some ⟨0, Int.fdiv d2.y d1.y, 0⟩
  else if |d1.y| = |d2.z| then some ⟨0, 0, Int.fdiv d2.z d1.y⟩
  else none

/-- Row 2, from the chosen z pair. -/
def row_z (d1 d2 : Point3) : Option Point3 :=
  if |d1.z| = |d2.x| then some ⟨Int.fdiv d2.x d1.z, 0, 0⟩
  else if |d1.z| = |d2.y| then some ⟨0, Int.fdiv d2.y d1.z, 0⟩
  else if |d1.z| = |d2.z| then some ⟨0, 0, Int.fdiv d2.z d1.z⟩
  else none

/-- First-match recovery of rotation row 0: `none` when no pair qualifies
(then `assert x_rotated` fails) or when the inner assert fails at the
first qualifying pair. -/
def find_row_x (scansA scansB : List Point3) (m : List (Nat × Nat)) : Option Point3 :=
  match (map_pairs m).find? (qualifies_x scansA) with
  | none => none
  | some pq => row_x (delta01 scansA pq) (delta02 scansB pq)

/-- First-match recovery of rotation row 1. -/
def find_row_y (scansA scansB : List Point3) (m : List (Nat × Nat)) : Option Point3 :=
  match (map_pairs m).find? (qualifies_y scansA) with
  | none => none
  | some pq => row_y (delta01 scansA pq) (delta02 scansB pq)

/-- First-match recovery of rotation row 2. -/
def find_row_z (scansA scansB : List Point3) (m : List (Nat × Nat)) : Option Point3 :=
  match (map_pairs m).find? (qualifies_z scansA) with
  | none => none
  | some pq => row_z (delta01 scansA pq) (delta02 scansB pq)

/-- Translation recovery from the first mapped correspondence: with the
new rotation already set on scanner02 (and its entry translation still in
place), `translation = -(delta(scanner01.scans[i01], scanner02.get_scan(i02)))`. -/
def translated (s1scans : List Point3) (s2a : Scanner) (i01 i02 : Nat) : Scanner :=
  let scan02 := get_scan s2a i02
  let d := delta (lget Point3.zero s1scans i01) scan02
  set_translation s2a ⟨-d.x, -d.y, -d.z⟩

/-- Source `orient_02_to_01(scanner01, scanner02, isomorphisim)`: resets
scanner01's transform, recovers the rotation rows (aborting on a failed
assert), sets the rotation on scanner02, recovers the translation from
the first mapped correspondence, and finally checks that every mapped
scanner02 point lands exactly on its scanner01 point.  The `m = []` inner
branch is unreachable because a found row proves the pair list nonempty.
Returns the mutated `(scanner01, scanner02)` on success. -/
def orient_02_to_01 (s1 s2 : Scanner) (m : List (Nat × Nat)) :
    Option (Scanner × Scanner) :=
  let s1r := reset_translation (reset_rotation s1)
  match find_row_x s1.scans s2.scans m, find_row_y s1.scans s2.scans m,
      find_row_z s1.scans s2.scans m with
  | some r0, some r1, some r2 =>
    let s2a := set_rotation s2 ⟨r0.x, r0.y, r0.z, r1.x, r1.y, r1.z, r2.x, r2.y, r2.z⟩
    match m with
    | [] => none
    | (i01, i02) :: _ =>
      let s2b := translated s1.scans s2a i01 i02
      if m.all fun p =>
          decide (delta (lget Point3.zero s1.scans p.1) (get_scan s2b p.2) = Point3.zero)
      then some (s1r, s2b)
      else none
  | _, _, _ => none

/-- Source `merge_02_into_01` inner loop over `scanner02.get_scans()`:
a transformed scanner02 point already present among scanner01's current
transformed points is skipped, otherwise its coordinates are appended to
scanner01's local points. -/
def merge_aux (s1 : Scanner) : List Point3 → Scanner
  | [] => s1
  | q :: qs =>
      if q ∈ get_scans s1 then merge_aux s1 qs else merge_aux (add_scan s1 q) qs

/-- Source `merge_02_into_01(scanner01, scanner02)`: dedup-append all of
scanner02's transformed points, then rebuild scanner01's graph. -/
def merge_02_into_01 (s1 s2 : Scanner) : Scanner :=
  build_graph (merge_aux s1 (get_scans s2))

/-- One iteration of the driver's worklist loop: pop the head, match it
against the reference; on a map of size >= 12 solve, merge and check the
size law (`assert scanner00.size() == expected_size`), otherwise requeue
at the tail.  `none` models any uncaught exception inside the iteration. -/
def driver_step (ref : Scanner) : List Scanner → Option (Scanner × List Scanner)
  | [] => some (ref, [])
  | w :: rest =>
    match find_subgraph_isomorphism ref w with
    | none => none
    | some iso =>
      if 12 ≤ iso.length then
        match orient_02_to_01 ref w iso with
        | none => none
        | some (refA, wB) =>
          let ref2 := merge_02_into_01 refA wB
          if (ref2.scans.length : Int) =
              (ref.scans.length : Int) + (w.scans.length : Int) - (iso.length : Int)
          then some (ref2, rest)
          else none
      else some (ref, rest ++ [w])

/-- The driver's `while len(unoriented_scanners) > 0` loop, with explicit
fuel (the source loop has no termination guarantee; out of fuel we stop
and report the current state). -/
def driver_run : Nat → Scanner → List Scanner → Option (Scanner × List Scanner)
  | 0, ref, wl => some (ref, wl)
  | _ + 1, ref, [] => some (ref, [])
  | n + 1, ref, w :: rest =>
      (driver_step ref (w :: rest)).bind fun pr => driver_run n pr.1 pr.2

/-- A scanner whose transform is the identity, as the reference scanner is
supposed to stay. -/
def identity_transform (s : Scanner) : Prop :=
  s.rotation_matrix = idMat ∧ s.translation = Point3.zero

/-- The 24 axis-aligned orthonormal rotations: signed permutation matrices
of determinant +1 (rows are signed standard basis vectors, one per axis,
with sign pattern making the determinant +1). -/
def rotations24 : List Mat3 :=
  [⟨1,0,0, 0,1,0, 0,0,1⟩, ⟨1,0,0, 0,-1,0, 0,0,-1⟩,
   ⟨-1,0,0, 0,1,0, 0,0,-1⟩, ⟨-1,0,0, 0,-1,0, 0,0,1⟩,
   ⟨0,1,0, 0,0,1, 1,0,0⟩, ⟨0,1,0, 0,0,-1, -1,0,0⟩,
   ⟨0,-1,0, 0,0,1, -1,0,0⟩, ⟨0,-1,0, 0,0,-1, 1,0,0⟩,
   ⟨0,0,1, 1,0,0, 0,1,0⟩, ⟨0,0,1, -1,0,0, 0,-1,0⟩,
   ⟨0,0,-1, 1,0,0, 0,-1,0⟩, ⟨0,0,-1, -1,0,0, 0,1,0⟩,
   ⟨1,0,0, 0,0,1, 0,-1,0⟩, ⟨1,0,0, 0,0,-1, 0,1,0⟩,
   ⟨-1,0,0, 0,0,1, 0,1,0⟩, ⟨-1,0,0, 0,0,-1, 0,-1,0⟩,
   ⟨0,1,0, 1,0,0, 0,0,-1⟩, ⟨0,1,0, -1,0,0, 0,0,1⟩,
   ⟨0,-1,0, 1,0,0, 0,0,1⟩, ⟨0,-1,0, -1,0,0, 0,0,-1⟩,
   ⟨0,0,1, 0,1,0, -1,0,0⟩, ⟨0,0,1, 0,-1,0, 1,0,0⟩,
   ⟨0,0,-1, 0,1,0, 1,0,0⟩, ⟨0,0,-1, 0,-1,0, -1,0,0⟩]

/-- Pairwise consistency of a correspondence map against two distance
graphs, the property of claim C3. -/
def consistent_map (g1 g2 : List (List Int)) (m : List (Nat × Nat)) : Prop :=
  ∀ p ∈ m, ∀ q ∈ m, graphGet g1 p.1 q.1 = graphGet g2 p.2 q.2

instance (g1 g2 : List (List Int)) (m : List (Nat × Nat)) :
    Decidable (consistent_map g1 g2 m) := by
  unfold consistent_map; infer_instance

/-!
Concrete scanners, correspondence maps and edge lists used by the
counterexamples and witnesses below.
-/

/-- Twelve points (k, 2k, 4k); any two of them give an axis-defining
delta for all three axes. -/
def c1scans : List Point3 := (List.range 12).map (fun k => ⟨k, 2 * k, 4 * k⟩)

/-- Scanner 0 over `c1scans`. -/
def c1A : Scanner := build_graph { Scanner.init 0 with scans := c1scans }

/-- Scanner 1 with exactly the same points (identity rotation, zero
translation relation to `c1A`). -/
def c1B : Scanner := build_graph { Scanner.init 1 with scans := c1scans }

/-- The identity correspondence map of size 12. -/
def c1m : List (Nat × Nat) := (List.range 12).map (fun k => (k, k))

/-- Thirteen points, pre-sorted by tuple order, in generic position. -/
def c2Ascans : List Point3 :=
  [⟨0, 4, 90⟩, ⟨1, 17, 75⟩, ⟨2, 33, 61⟩, ⟨3, 48, 44⟩, ⟨4, 62, 30⟩,
   ⟨5, 77, 14⟩, ⟨6, 91, 2⟩, ⟨7, 23, 88⟩, ⟨8, 39, 72⟩, ⟨9, 55, 57⟩,
   ⟨10, 70, 41⟩, ⟨11, 86, 27⟩, ⟨12, 99, 12⟩]

/-- The coordinate rotation (x, y, z) to (z, x, y), one of the 24 valid
rotations, applied pointwise to build the second scanner's raw data. -/
def c2tau (p : Point3) : Point3 := ⟨p.z, p.x, p.y⟩

/-- Reference scanner holding the 13 points of `c2Ascans`. -/
def c2A : Scanner := build_graph { Scanner.init 0 with scans := c2Ascans }

/-- Second scanner: the same 13 points expressed in the rotated frame. -/
def c2B : Scanner := build_graph { Scanner.init 1 with scans := c2Ascans.map c2tau }

/-- A consistent correspondence map of size 12 pairing twelve of the
thirteen shared points (index pairs read off from the two sorted orders);
the thirteenth shared point is deliberately left unmapped. -/
def c2m : List (Nat × Nat) :=
  [(0, 12), (1, 10), (2, 8), (3, 6), (4, 4), (5, 2), (6, 0), (7, 11), (8, 9),
   (9, 7), (10, 5), (11, 3)]

/-- Two points whose delta (2, 5, 7) has pairwise distinct nonzero
magnitudes, but whose x delta is the smallest of the three. -/
def c6A : Scanner :=
  build_graph { Scanner.init 0 with scans := [⟨0, 0, 0⟩, ⟨2, 5, 7⟩] }

/-- A second scanner with the same two points. -/
def c6B : Scanner :=
  build_graph { Scanner.init 1 with scans := [⟨0, 0, 0⟩, ⟨2, 5, 7⟩] }

/-- The swap correspondence between the two points of `c6A` and `c6B`. -/
def c6m : List (Nat × Nat) := [(0, 1), (1, 0)]

/-- Scanner `c6B` as it would stand with a stale nonzero translation at
entry to the solver. -/
def c9B : Scanner := set_translation c6B ⟨1, 0, 0⟩

/-- A two-point scanner used to exercise the matcher end to end. -/
def c3A : Scanner :=
  build_graph { Scanner.init 0 with scans := [⟨0, 0, 0⟩, ⟨1, 0, 0⟩] }

/-- Scanner with a single edge, of weight 25. -/
def c5A : Scanner :=
  build_graph { Scanner.init 0 with scans := [⟨0, 0, 0⟩, ⟨0, 3, 4⟩] }

/-- Scanner with two distinct edges of equal weight 25 (and one of
weight 20). -/
def c5B : Scanner :=
  build_graph { Scanner.init 1 with scans := [⟨0, 0, 0⟩, ⟨3, 4, 0⟩, ⟨5, 0, 0⟩] }

/-- A scanner holding a single point, hence no positive-weight edge. -/
def c8B : Scanner := build_graph { Scanner.init 1 with scans := [⟨1, 2, 3⟩] }

/-- A scanner whose raw point list is not sorted by tuple order. -/
def c7s : Scanner := { Scanner.init 0 with scans := [⟨1, 0, 0⟩, ⟨0, 0, 0⟩] }

/-!
Groundwork lemmas about indexing, sorting, transforms and graphs.
-/

theorem lget_of_length_le {α : Type} (d : α) :
    ∀ (l : List α) (i : Nat), l.length ≤ i → lget d l i = d := by
  intro l
  induction l with
  | nil => intro i _; rfl
  | cons a t ih =>
      intro i hi
      cases i with
      | zero => simp at hi
      | succ n => exact ih n (by simpa using hi)

theorem lget_map {α β : Type} (d : α) (d' : β) (f : α → β) :
    ∀ (l : List α) (i : Nat), i < l.length → lget d' (l.map f) i = f (lget d l i) := by
  intro l
  induction l with
  | nil => intro i hi; simp at hi
  | cons a t ih =>
      intro i hi
      cases i with
      | zero => rfl
      | succ n => exact ih n (by simpa using hi)

theorem lget_mem {α : Type} (d : α) :
    ∀ (l : List α) (i : Nat), i < l.length → lget d l i ∈ l := by
  intro l
  induction l with
  | nil => intro i hi; simp at hi
  | cons a t ih =>
      intro i hi
      cases i with
      | zero => exact List.mem_cons_self a t
      | succ n => exact List.mem_cons_of_mem a (ih n (by simpa using hi))

theorem lget_eq_get {α : Type} (d : α) :
    ∀ (l : List α) (i : Nat) (h : i < l.length), lget d l i = l.get ⟨i, h⟩ := by
  intro l
  induction l with
  | nil => intro i hi; simp at hi
  | cons a t ih =>
      intro i hi
      cases i with
      | zero => rfl
      | succ n => exact ih n (by simpa using hi)

theorem sort_points_perm (l : List Point3) : (sort_points l).Perm l :=
  List.perm_insertionSort point_le l

theorem length_sort_points (l : List Point3) : (sort_points l).length = l.length :=
  List.length_insertionSort point_le l

theorem mem_sort_points {l : List Point3} {p : Point3} :
    p ∈ sort_points l ↔ p ∈ l :=
  List.mem_insertionSort point_le

theorem sort_points_sorted (l : List Point3) : (sort_points l).Pairwise point_le :=
  List.sorted_insertionSort point_le l

theorem sort_edges_perm (l : List Edge) : (sort_edges l).Perm l :=
  List.perm_insertionSort edge_le l

theorem mem_sort_edges {l : List Edge} {e : Edge} :
    e ∈ sort_edges l ↔ e ∈ l :=
  List.mem_insertionSort edge_le

theorem sort_edges_sorted (l : List Edge) : (sort_edges l).Pairwise edge_le :=
  List.sorted_insertionSort edge_le l

theorem squared_distance_symm (p q : Point3) :
    squared_distance p q = squared_distance q p := by
  unfold squared_distance delta; ring

theorem squared_distance_self (p : Point3) : squared_distance p p = 0 := by
  unfold squared_distance delta; ring

theorem range_map_lget {α β : Type} (d : α) (f : α → β) :
    ∀ l : List α, (List.range l.length).map (fun i => f (lget d l i)) = l.map f := by
  intro l
  induction l with
  | nil => rfl
  | cons a t ih =>
      show (List.range (t.length + 1)).map (fun i => f (lget d (a :: t) i)) = _
      rw [List.range_succ_eq_map]
      simp only [List.map_cons, List.map_map]
      refine congrArg (f a :: ·) ?_
      have : ((fun i => f (lget d (a :: t) i)) ∘ Nat.succ) = fun i => f (lget d t i) := by
        funext i; rfl
      rw [this, ih]

theorem get_scans_eq (s : Scanner) :
    get_scans s = sort_points (s.scans.map
      (fun p => point_add (mat_vec s.rotation_matrix p) s.translation)) := by
  unfold get_scans
  refine congrArg sort_points ?_
  exact range_map_lget Point3.zero
    (fun p => point_add (mat_vec s.rotation_matrix p) s.translation) s.scans

theorem length_get_scans (s : Scanner) : (get_scans s).length = s.scans.length := by
  rw [get_scans_eq, length_sort_points, List.length_map]

theorem get_scan_identity (s : Scanner) (h : identity_transform s) (i : Nat) :
    get_scan s i = lget Point3.zero s.scans i := by
  obtain ⟨hr, ht⟩ := h
  unfold get_scan
  rw [hr, ht]
  rcases lget Point3.zero s.scans i with ⟨a, b, c⟩
  show Point3.mk (1 * a + 0 * b + 0 * c + 0) (0 * a + 1 * b + 0 * c + 0)
      (0 * a + 0 * b + 1 * c + 0) = ⟨a, b, c⟩
  simp only [Point3.mk.injEq]
  refine ⟨by ring, by ring, by ring⟩

theorem get_scans_identity (s : Scanner) (h : identity_transform s) :
    get_scans s = sort_points s.scans := by
  unfold get_scans
  refine congrArg sort_points ?_
  have h2 : (List.range s.scans.length).map (get_scan s) =
      (List.range s.scans.length).map (fun i => lget Point3.zero s.scans i) := by
    refine List.map_congr_left ?_
    intro i _
    exact get_scan_identity s h i
  rw [h2]
  have := range_map_lget Point3.zero (id : Point3 → Point3) s.scans
  simpa using this

theorem mem_get_scans_identity (s : Scanner) (h : identity_transform s) (q : Point3) :
    q ∈ get_scans s ↔ q ∈ s.scans := by
  rw [get_scans_identity s h]; exact mem_sort_points

theorem graphGet_matrix (scans : List Point3) (i j : Nat)
    (hi : i < scans.length) (hj : j < scans.length) :
    graphGet (graph_matrix scans) i j =
      squared_distance (lget Point3.zero scans i) (lget Point3.zero scans j) := by
  unfold graphGet graph_matrix
  rw [lget_map Point3.zero [] (fun p => scans.map (fun q => squared_distance p q))
    scans i hi]
  rw [lget_map Point3.zero 0 (fun q => squared_distance (lget Point3.zero scans i) q)
    scans j hj]

theorem graphGet_matrix_oob (scans : List Point3) (i j : Nat)
    (h : scans.length ≤ i ∨ scans.length ≤ j) :
    graphGet (graph_matrix scans) i j = 0 := by
  unfold graphGet graph_matrix
  rcases h with h | h
  · rw [lget_of_length_le [] _ i (by simpa using h)]; rfl
  · by_cases hi : i < scans.length
    · rw [lget_map Point3.zero [] (fun p => scans.map (fun q => squared_distance p q))
        scans i hi]
      exact lget_of_length_le 0 _ j (by simpa using h)
    · rw [lget_of_length_le [] _ i (by simpa using Nat.le_of_not_lt hi)]; rfl

theorem graph_matrix_symm (scans : List Point3) (i j : Nat) :
    graphGet (graph_matrix scans) i j = graphGet (graph_matrix scans) j i := by
  by_cases hi : i < scans.length
  · by_cases hj : j < scans.length
    · rw [graphGet_matrix scans i j hi hj, graphGet_matrix scans j i hj hi]
      exact squared_distance_symm _ _
    · rw [graphGet_matrix_oob scans i j (Or.inr (Nat.le_of_not_lt hj)),
        graphGet_matrix_oob scans j i (Or.inl (Nat.le_of_not_lt hj))]
  · rw [graphGet_matrix_oob scans i j (Or.inl (Nat.le_of_not_lt hi)),
      graphGet_matrix_oob scans j i (Or.inr (Nat.le_of_not_lt hi))]

theorem graph_matrix_diag (scans : List Point3) (i : Nat) :
    graphGet (graph_matrix scans) i i = 0 := by
  by_cases hi : i < scans.length
  · rw [graphGet_matrix scans i i hi hi]; exact squared_distance_self _
  · exact graphGet_matrix_oob scans i i (Or.inl (Nat.le_of_not_lt hi))

theorem mem_edges_unsorted {scans : List Point3} {e : Edge}
    (h : e ∈ edges_unsorted scans) :
    e.i < scans.length ∧ e.j < scans.length ∧ e.i ≤ e.j ∧
      e.weight = squared_distance (lget Point3.zero scans e.i) (lget Point3.zero scans e.j) ∧
      0 < e.weight := by
  unfold edges_unsorted at h
  rw [List.mem_flatMap] at h
  obtain ⟨i01, hi01, hmem⟩ := h
  rw [List.mem_filterMap] at hmem
  obtain ⟨i02, hi02, heq⟩ := hmem
  rw [List.mem_range] at hi01 hi02
  by_cases hle : i01 ≤ i02
  · rw [if_pos hle] at heq
    by_cases hd : 0 < squared_distance (lget Point3.zero scans i01) (lget Point3.zero scans i02)
    · simp only [hd, if_pos] at heq
      obtain rfl := (Option.some_inj.mp heq).symm
      exact ⟨hi01, hi02, hle, rfl, hd⟩
    · simp only [hd, if_neg, if_false] at heq
      exact Option.noConfusion heq
  · rw [if_neg hle] at heq; cases heq

theorem mem_build_edges {s : Scanner} {e : Edge}
    (h : e ∈ (build_graph s).unique_edges_by_weight) :
    graphGet (build_graph s).graph e.i e.j = e.weight := by
  have h2 : e ∈ edges_unsorted (sort_points s.scans) := by
    have := mem_sort_edges.mp (by exact h)
    exact this
  obtain ⟨hi, hj, _, hw, _⟩ := mem_edges_unsorted h2
  show graphGet (graph_matrix (sort_points s.scans)) e.i e.j = e.weight
  rw [graphGet_matrix _ _ _ hi hj]
  exact hw.symm

theorem build_graph_symm (s : Scanner) (i j : Nat) :
    graphGet (build_graph s).graph i j = graphGet (build_graph s).graph j i :=
  graph_matrix_symm (sort_points s.scans) i j

theorem build_graph_diag (s : Scanner) (i : Nat) :
    graphGet (build_graph s).graph i i = 0 :=
  graph_matrix_diag (sort_points s.scans) i

/-!
Consistency invariant of the matcher's candidate maps.
-/

/-- The two facts about a built distance graph that the invariant proof
uses: symmetry and zero diagonal. -/
def good_graph (g : List (List Int)) : Prop :=
  (∀ i j, graphGet g i j = graphGet g j i) ∧ (∀ i, graphGet g i i = 0)

theorem build_graph_good (s : Scanner) : good_graph (build_graph s).graph :=
  ⟨build_graph_symm s, build_graph_diag s⟩

theorem get_map_none_iso_add (m : List (Nat × Nat)) (k v : Nat)
    (h : get_map m k = none) : iso_add m k v = m ++ [(k, v)] := by
  induction m with
  | nil => rfl
  | cons a rest ih =>
      obtain ⟨a1, a2⟩ := a
      by_cases hk : a1 = k
      · unfold get_map at h; rw [if_pos hk] at h; cases h
      · unfold get_map at h; rw [if_neg hk] at h
        show iso_add ((a1, a2) :: rest) k v = _
        unfold iso_add; rw [if_neg hk, ih h]; rfl

theorem get_map_some_iso_add (m : List (Nat × Nat)) (k v : Nat)
    (h : get_map m k = some v) : iso_add m k v = m := by
  induction m with
  | nil => cases h
  | cons a rest ih =>
      obtain ⟨a1, a2⟩ := a
      by_cases hk : a1 = k
      · unfold get_map at h; rw [if_pos hk] at h
        have : a2 = v := by cases h; rfl
        show iso_add ((a1, a2) :: rest) k v = _
        unfold iso_add; rw [if_pos hk, this]
      · unfold get_map at h; rw [if_neg hk] at h
        show iso_add ((a1, a2) :: rest) k v = _
        unfold iso_add; rw [if_neg hk, ih h]

theorem consistent_nil (g1 g2 : List (List Int)) : consistent_map g1 g2 [] := by
  intro p hp; cases hp

theorem consistent_iso_add {g1 g2 : List (List Int)} {m : List (Nat × Nat)}
    {j k : Nat} (hg1 : good_graph g1) (hg2 : good_graph g2)
    (hm : consistent_map g1 g2 m)
    (ht : test_edge_addition g1 g2 m j k = true) :
    consistent_map g1 g2 (iso_add m j k) := by
  cases hjk : get_map m j with
  | some v =>
      have hv : v = k := by
        unfold test_edge_addition at ht; rw [hjk] at ht
        exact of_decide_eq_true ht
      rw [hv] at hjk
      rw [get_map_some_iso_add m j k hjk]
      exact hm
  | none =>
      rw [get_map_none_iso_add m j k hjk]
      have hall : ∀ p ∈ m, graphGet g1 p.1 j = graphGet g2 p.2 k := by
        unfold test_edge_addition at ht; rw [hjk] at ht
        intro p hp
        exact of_decide_eq_true (List.all_eq_true.mp ht p hp)
      intro p hp q hq
      rcases List.mem_append.mp hp with hp' | hp'
      · rcases List.mem_append.mp hq with hq' | hq'
        · exact hm p hp' q hq'
        · have : q = (j, k) := by simpa using hq'
          subst this
          exact hall p hp'
      · have : p = (j, k) := by simpa using hp'
        subst this
        rcases List.mem_append.mp hq with hq' | hq'
        · show graphGet g1 j q.1 = graphGet g2 k q.2
          rw [hg1.1 j q.1, hg2.1 k q.2]
          exact hall q hq'
        · have : q = (j, k) := by simpa using hq'
          subst this
          show graphGet g1 j j = graphGet g2 k k
          rw [hg1.2 j, hg2.2 k]

theorem mem_ite_nil_right {α : Type} {c : Prop} [Decidable c] {x : α} {l : List α}
    (h : x ∈ if c then l else []) : x ∈ l := by
  split at h
  · exact h
  · cases h

theorem mem_ite_nil_left {α : Type} {c : Prop} [Decidable c] {x : α} {l : List α}
    (h : x ∈ if c then [] else l) : x ∈ l := by
  split at h
  · cases h
  · exact h

theorem consistent_seed {g1 g2 : List (List Int)} {i01 j01 i02 j02 : Nat}
    (hg1 : good_graph g1) (hg2 : good_graph g2)
    (hw : graphGet g1 i01 j01 = graphGet g2 i02 j02) :
    consistent_map g1 g2 (iso_add (iso_add [] i01 i02) j01 j02) := by
  show consistent_map g1 g2 (iso_add [(i01, i02)] j01 j02)
  by_cases hij : i01 = j01
  · subst hij
    show consistent_map g1 g2 (if i01 = i01 then [(i01, j02)] else _)
    rw [if_pos rfl]
    intro p hp q hq
    have hp' : p = (i01, j02) := by simpa using hp
    have hq' : q = (i01, j02) := by simpa using hq
    subst hp'; subst hq'
    show graphGet g1 i01 i01 = graphGet g2 j02 j02
    rw [hg1.2 i01, hg2.2 j02]
  · have hform : iso_add [(i01, i02)] j01 j02 = [(i01, i02), (j01, j02)] := by
      show (if i01 = j01 then _ else (i01, i02) :: iso_add [] j01 j02) = _
      rw [if_neg hij]; rfl
    rw [hform]
    intro p hp q hq
    have hp' : p = (i01, i02) ∨ p = (j01, j02) := by simpa using hp
    have hq' : q = (i01, i02) ∨ q = (j01, j02) := by simpa using hq
    rcases hp' with rfl | rfl <;> rcases hq' with rfl | rfl
    · show graphGet g1 i01 i01 = graphGet g2 i02 i02
      rw [hg1.2 i01, hg2.2 i02]
    · exact hw
    · show graphGet g1 j01 i01 = graphGet g2 j02 i02
      rw [hg1.1 j01 i01, hg2.1 j02 i02]
      exact hw
    · show graphGet g1 j01 j01 = graphGet g2 j02 j02
      rw [hg1.2 j01, hg2.2 j02]

theorem step_map_consistent {g1 g2 : List (List Int)} {i01 j01 i02 j02 : Nat}
    {m : List (Nat × Nat)} (hg1 : good_graph g1) (hg2 : good_graph g2)
    (hm : consistent_map g1 g2 m) (mapped : Bool) :
    ∀ m' ∈ (step_map g1 g2 i01 j01 i02 j02 mapped m).2,
      consistent_map g1 g2 m' := by
  intro m' hm'
  unfold step_map at hm'
  simp only at hm'
  rcases List.mem_append.mp hm' with h | h
  · rcases List.mem_append.mp h with h | hext
    · rcases List.mem_append.mp h with hc | hc
      · have : m' = m := by simpa using mem_ite_nil_right hc
        subst this; exact hm
      · have : m' = m := by simpa using mem_ite_nil_right hc
        subst this; exact hm
    · have hext2 := mem_ite_nil_right hext
      rcases List.mem_append.mp hext2 with hb | hb
      · by_cases t1 : test_edge_addition g1 g2 m i01 i02 = true
        · by_cases t2 : test_edge_addition g1 g2 (iso_add m i01 i02) j01 j02 = true
          · have : m' = iso_add (iso_add m i01 i02) j01 j02 := by
              simp only [t1, t2, if_true] at hb
              simpa using hb
            subst this
            exact consistent_iso_add hg1 hg2 (consistent_iso_add hg1 hg2 hm t1) t2
          · rw [Bool.not_eq_true] at t2
            simp only [t1, t2, if_true] at hb
            simp at hb
        · rw [Bool.not_eq_true] at t1
          simp only [t1] at hb
          simp at hb
      · by_cases t1 : test_edge_addition g1 g2 m i01 j02 = true
        · by_cases t2 : test_edge_addition g1 g2 (iso_add m i01 j02) j01 i02 = true
          · have : m' = iso_add (iso_add m i01 j02) j01 i02 := by
              simp only [t1, t2, if_true] at hb
              simpa using hb
            subst this
            exact consistent_iso_add hg1 hg2 (consistent_iso_add hg1 hg2 hm t1) t2
          · rw [Bool.not_eq_true] at t2
            simp only [t1, t2, if_true] at hb
            simp at hb
        · rw [Bool.not_eq_true] at t1
          simp only [t1] at hb
          simp at hb
  · have : m' = m := by simpa using mem_ite_nil_left h
    subst this; exact hm

theorem process_stack_consistent {g1 g2 : List (List Int)} {i01 j01 i02 j02 : Nat}
    (hg1 : good_graph g1) (hg2 : good_graph g2) :
    ∀ (stack : List (List (Nat × Nat))) (mapped : Bool),
      (∀ m ∈ stack, consistent_map g1 g2 m) →
      ∀ m' ∈ (process_stack g1 g2 i01 j01 i02 j02 stack mapped).2,
        consistent_map g1 g2 m' := by
  intro stack
  induction stack with
  | nil => intro mapped _ m' hm'; cases hm'
  | cons m rest ih =>
      intro mapped hall m' hm'
      unfold process_stack at hm'
      rcases List.mem_append.mp hm' with h | h
      · exact step_map_consistent hg1 hg2 (hall m (List.mem_cons_self m rest)) mapped m' h
      · exact ih _ (fun x hx => hall x (List.mem_cons_of_mem m hx)) m' h

theorem process_edge_pair_consistent {g1 g2 : List (List Int)}
    {maps : List (List (Nat × Nat))} {e1 e2 : Edge}
    (hg1 : good_graph g1) (hg2 : good_graph g2)
    (hw : graphGet g1 e1.i e1.j = graphGet g2 e2.i e2.j)
    (hmaps : ∀ m ∈ maps, consistent_map g1 g2 m) :
    ∀ m' ∈ process_edge_pair g1 g2 maps e1 e2, consistent_map g1 g2 m' := by
  intro m' hm'
  have hrev : ∀ m ∈ maps.reverse, consistent_map g1 g2 m := by
    intro m hm; exact hmaps m (List.mem_reverse.mp hm)
  unfold process_edge_pair at hm'
  simp only at hm'
  split at hm'
  · exact process_stack_consistent hg1 hg2 maps.reverse false hrev m' hm'
  · rcases List.mem_append.mp hm' with h | h
    · rcases List.mem_append.mp h with h | h
      · have : m' = iso_add (iso_add [] e1.i e2.i) e1.j e2.j := by simpa using h
        subst this
        exact consistent_seed hg1 hg2 hw
      · exact process_stack_consistent hg1 hg2 maps.reverse false hrev m' h
    · have : m' = iso_add (iso_add [] e1.i e2.j) e1.j e2.i := by simpa using h
      subst this
      refine consistent_seed hg1 hg2 ?_
      rw [hg2.1 e2.j e2.i]
      exact hw

/-!
Soundness of the first-phase merge-join, and preservation through the
fold over matched edge pairs.
-/

theorem advance02_go_lt (bs : List Edge) (w : Int) :
    ∀ fuel i, i < bs.length → advance02_go bs w fuel i < bs.length := by
  intro fuel
  induction fuel with
  | zero => intro i h; exact h
  | succ fuel ih =>
      intro i h
      unfold advance02_go
      split
      · split
        · exact ih (i + 1) (by omega)
        · exact h
      · exact h

theorem advance02_lt (bs : List Edge) (w : Int) (i : Nat) (h : i < bs.length) :
    advance02 bs w i < bs.length :=
  advance02_go_lt bs w bs.length i h

theorem matched_edges_aux_sound (bs : List Edge) :
    ∀ (as : List Edge) (i : Nat), i < bs.length →
      ∀ pr ∈ matched_edges_aux bs as i,
        pr.1.weight = pr.2.weight ∧ pr.1 ∈ as ∧ pr.2 ∈ bs := by
  intro as
  induction as with
  | nil => intro i _ pr hpr; cases hpr
  | cons a rest ih =>
      intro i hi pr hpr
      unfold matched_edges_aux at hpr
      simp only at hpr
      have hlt : advance02 bs a.weight i < bs.length :=
        advance02_lt bs a.weight i hi
      split at hpr
      · rcases List.mem_cons.mp hpr with h | h
        · subst h
          refine ⟨by assumption, List.mem_cons_self a rest, ?_⟩
          exact lget_mem Edge.default bs _ hlt
        · obtain ⟨h1, h2, h3⟩ := ih _ hlt pr h
          exact ⟨h1, List.mem_cons_of_mem a h2, h3⟩
      · obtain ⟨h1, h2, h3⟩ := ih _ hlt pr hpr
        exact ⟨h1, List.mem_cons_of_mem a h2, h3⟩

theorem matched_edges_sound {as bs : List Edge} (hbs : 0 < bs.length) :
    ∀ pr ∈ matched_edges as bs,
      pr.1.weight = pr.2.weight ∧ pr.1 ∈ as ∧ pr.2 ∈ bs :=
  matched_edges_aux_sound bs as 0 hbs

theorem foldl_process_consistent {g1 g2 : List (List Int)}
    (hg1 : good_graph g1) (hg2 : good_graph g2) :
    ∀ (matched : List (Edge × Edge)) (acc : List (List (Nat × Nat))),
      (∀ pr ∈ matched, graphGet g1 pr.1.i pr.1.j = graphGet g2 pr.2.i pr.2.j) →
      (∀ m ∈ acc, consistent_map g1 g2 m) →
      ∀ m ∈ matched.foldl
        (fun acc pr => process_edge_pair g1 g2 acc pr.1 pr.2) acc,
        consistent_map g1 g2 m := by
  intro matched
  induction matched with
  | nil => intro acc _ hacc m hm; exact hacc m hm
  | cons pr rest ih =>
      intro acc hw hacc m hm
      refine ih _ (fun q hq => hw q (List.mem_cons_of_mem pr hq)) ?_ m hm
      exact process_edge_pair_consistent hg1 hg2
        (hw pr (List.mem_cons_self pr rest)) hacc

theorem foldl_largest_mem {α : Type} (f : α → α → α)
    (hf : ∀ b m, f b m = b ∨ f b m = m) :
    ∀ (rest : List α) (m0 : α), rest.foldl f m0 ∈ m0 :: rest := by
  intro rest
  induction rest with
  | nil => intro m0; exact List.mem_cons_self m0 []
  | cons a t ih =>
      intro m0
      show List.foldl f (f m0 a) t ∈ m0 :: a :: t
      rcases hf m0 a with h | h
      · rw [h]
        rcases List.mem_cons.mp (ih m0) with h2 | h2
        · rw [h2]; exact List.mem_cons_self m0 _
        · exact List.mem_cons_of_mem _ (List.mem_cons_of_mem a h2)
      · rw [h]
        rcases List.mem_cons.mp (ih a) with h2 | h2
        · rw [h2]; exact List.mem_cons_of_mem _ (List.mem_cons_self a t)
        · exact List.mem_cons_of_mem _ (List.mem_cons_of_mem a h2)

/-- Claim C3: for every pair of scanners with up-to-date graphs (i.e. as
produced by `build_graph`), any map returned by
`find_subgraph_isomorphism` is consistent: for every two entries
(i1, i2) and (j1, j2) of the map, scanner01.graph[i1][j1] equals
scanner02.graph[i2][j2]. -/
theorem claim_C3_matcher_output_consistent (s1 s2 : Scanner)
    (iso : List (Nat × Nat))
    (h : find_subgraph_isomorphism (build_graph s1) (build_graph s2) = some iso) :
    ∀ p ∈ iso, ∀ q ∈ iso,
      graphGet (build_graph s1).graph p.1 q.1 =
        graphGet (build_graph s2).graph p.2 q.2 := by
  have hg1 : good_graph (build_graph s1).graph := build_graph_good s1
  have hg2 : good_graph (build_graph s2).graph := build_graph_good s2
  unfold find_subgraph_isomorphism at h
  split at h
  · cases h
  · rename_i b0 brest hedge
    have hbs : 0 < (build_graph s2).unique_edges_by_weight.length := by
      rw [hedge]; exact Nat.succ_pos _
    have hwmatched : ∀ pr ∈ matched_edges (build_graph s1).unique_edges_by_weight
        (build_graph s2).unique_edges_by_weight,
        graphGet (build_graph s1).graph pr.1.i pr.1.j =
          graphGet (build_graph s2).graph pr.2.i pr.2.j := by
      intro pr hpr
      obtain ⟨hw, h1, h2⟩ := matched_edges_sound hbs pr hpr
      rw [mem_build_edges h1, mem_build_edges h2]
      exact hw
    have hfold := foldl_process_consistent hg1 hg2
      (matched_edges (build_graph s1).unique_edges_by_weight
        (build_graph s2).unique_edges_by_weight) [] hwmatched
      (fun m hm => absurd hm (List.not_mem_nil m))
    simp only at h
    split at h
    · have : iso = [] := by cases h; rfl
      subst this
      intro p hp; cases hp
    · rename_i m0 rest hmaps
      have hsel : iso ∈ m0 :: rest := by
        cases h
        refine foldl_largest_mem _ ?_ rest m0
        intro b m
        by_cases hbm : b.length < m.length
        · rw [if_pos hbm]; exact Or.inr rfl
        · rw [if_neg hbm]; exact Or.inl rfl
      have : iso ∈ List.foldl
          (fun acc pr => process_edge_pair (build_graph s1).graph
            (build_graph s2).graph acc pr.1 pr.2)
          [] (matched_edges (build_graph s1).unique_edges_by_weight
            (build_graph s2).unique_edges_by_weight) := by
        rw [hmaps]; exact hsel
      exact hfold iso this

/-- Witness for C3: a concrete matcher run returns the map
[(0,0), (1,1)], and the consistency instance at its two entries holds. -/
theorem claim_C3_witness :
    graphGet (build_graph { Scanner.init 0 with scans := [⟨0, 0, 0⟩, ⟨1, 0, 0⟩] }).graph 0 1 =
      graphGet (build_graph { Scanner.init 0 with scans := [⟨0, 0, 0⟩, ⟨1, 0, 0⟩] }).graph 0 1 :=
  claim_C3_matcher_output_consistent
    { Scanner.init 0 with scans := [⟨0, 0, 0⟩, ⟨1, 0, 0⟩] }
    { Scanner.init 0 with scans := [⟨0, 0, 0⟩, ⟨1, 0, 0⟩] }
    [(0, 0), (1, 1)] (by decide) (0, 0) (by decide) (1, 1) (by decide)

/-- Claim C1 (evaluated at a failing input): the claim says that a call to
`orient_02_to_01` with a consistent correspondence map of size 12 between
two scanners related by a valid rotation (here the identity, which is in
`rotations24`) plus an integer translation (here zero) always reaches and
passes the final check.  On this input the solver instead aborts
(`none`): the guard `if i01 != i02:` in rotation recovery compares a
scanner01 point index against a scanner02 point index and therefore skips
every pair of the identity correspondence, so `assert x_rotated and
y_rotated and z_rotated` fails before the check is reached. -/
theorem claim_C1_solver_aborts_on_identity_correspondence :
    c1m.length = 12 ∧
    idMat ∈ rotations24 ∧
    c1B.scans = c1A.scans.map (fun p => point_add (mat_vec idMat p) Point3.zero) ∧
    consistent_map c1A.graph c1B.graph c1m ∧
    orient_02_to_01 c1A c1B c1m = none :=
  ⟨by decide, by decide, by decide, by decide, by decide⟩

/-- Claim C4: for any scanner whose rotation is one of the 24
signed-permutation matrices of determinant +1 and any integer
translation, the squared distance between any two transformed points (as
computed by `get_scan`) equals the squared distance between the original
points. -/
theorem claim_C4_distance_invariance (s : Scanner)
    (hR : s.rotation_matrix ∈ rotations24) (i j : Nat) :
    squared_distance (get_scan s i) (get_scan s j) =
      squared_distance (lget Point3.zero s.scans i) (lget Point3.zero s.scans j) := by
  obtain ⟨idx, t, R, scans, g, edges⟩ := s
  unfold get_scan
  simp only at hR ⊢
  generalize lget Point3.zero scans i = p
  generalize lget Point3.zero scans j = q
  simp only [rotations24, List.mem_cons, List.not_mem_nil, or_false] at hR
  obtain ⟨px, py, pz⟩ := p
  obtain ⟨qx, qy, qz⟩ := q
  obtain ⟨tx, ty, tz⟩ := t
  rcases hR with rfl | rfl | rfl | rfl | rfl | rfl | rfl | rfl | rfl | rfl | rfl | rfl |
    rfl | rfl | rfl | rfl | rfl | rfl | rfl | rfl | rfl | rfl | rfl | rfl <;>
    (simp only [squared_distance, delta, point_add, mat_vec]; ring)

/-- Witness for C4: a concrete scanner with a nontrivial rotation from the
list and a nonzero translation; the squared distance of the two
transformed points equals that of the raw points. -/
theorem claim_C4_witness :
    squared_distance
        (get_scan ⟨0, ⟨5, -3, 2⟩, ⟨0, 1, 0, 0, 0, 1, 1, 0, 0⟩,
          [⟨1, 2, 3⟩, ⟨4, 5, 6⟩], [], []⟩ 0)
        (get_scan ⟨0, ⟨5, -3, 2⟩, ⟨0, 1, 0, 0, 0, 1, 1, 0, 0⟩,
          [⟨1, 2, 3⟩, ⟨4, 5, 6⟩], [], []⟩ 1) =
      squared_distance (lget Point3.zero [⟨1, 2, 3⟩, ⟨4, 5, 6⟩] 0)
        (lget Point3.zero [⟨1, 2, 3⟩, ⟨4, 5, 6⟩] 1) :=
  claim_C4_distance_invariance
    ⟨0, ⟨5, -3, 2⟩, ⟨0, 1, 0, 0, 0, 1, 1, 0, 0⟩, [⟨1, 2, 3⟩, ⟨4, 5, 6⟩], [], []⟩
    (by decide) 0 1

/-- Counterexample to claim C7 as stated: `build_graph` does not leave the
order of the points sequence unchanged; on a scanner whose raw points are
out of tuple order it reorders them. -/
theorem claim_C7_counterexample : (build_graph c7s).scans ≠ c7s.scans := by
  decide

/-- Claim C7 as amended: `add_scan` appends to the points sequence, the
transform setters leave it untouched, and `build_graph` keeps exactly the
same points (a permutation) but re-sorts them ascending by tuple order. -/
theorem claim_C7_points_append_only (s : Scanner) (p : Point3) (M : Mat3)
    (t : Point3) :
    (build_graph s).scans.Perm s.scans ∧
    (build_graph s).scans.Pairwise point_le ∧
    (add_scan s p).scans = s.scans ++ [p] ∧
    (set_rotation s M).scans = s.scans ∧
    (set_translation s t).scans = s.scans ∧
    (reset_rotation s).scans = s.scans ∧
    (reset_translation s).scans = s.scans :=
  ⟨sort_points_perm s.scans, sort_points_sorted s.scans, rfl, rfl, rfl, rfl, rfl⟩

/-- Claim C8: a scanner with fewer than two distinct points gets an empty
`unique_edges_by_weight` from `build_graph`, and on an empty edge list of
its second argument `find_subgraph_isomorphism` hits the unguarded read
`scanner02.unique_edges_by_weight[0]` (an uncaught IndexError, modelled
as `none`) instead of returning an empty map. -/
theorem claim_C8_matcher_requires_edges (s1 s0 : Scanner)
    (h : ∀ p ∈ s0.scans, ∀ q ∈ s0.scans, p = q) :
    (build_graph s0).unique_edges_by_weight = [] ∧
    find_subgraph_isomorphism s1 (build_graph s0) = none := by
  have hnil : (build_graph s0).unique_edges_by_weight = [] := by
    show sort_edges (edges_unsorted (sort_points s0.scans)) = []
    have hun : edges_unsorted (sort_points s0.scans) = [] := by
      refine List.eq_nil_iff_forall_not_mem.mpr ?_
      intro e he
      obtain ⟨hi, hj, _, hw, hpos⟩ := mem_edges_unsorted he
      have hp : lget Point3.zero (sort_points s0.scans) e.i ∈ s0.scans :=
        mem_sort_points.mp (lget_mem Point3.zero _ e.i hi)
      have hq : lget Point3.zero (sort_points s0.scans) e.j ∈ s0.scans :=
        mem_sort_points.mp (lget_mem Point3.zero _ e.j hj)
      have heq := h _ hp _ hq
      rw [hw, heq, squared_distance_self] at hpos
      exact absurd hpos (by decide)
    rw [hun]; rfl
  refine ⟨hnil, ?_⟩
  unfold find_subgraph_isomorphism
  split
  · rfl
  · rename_i b0 brest hedge
    rw [hnil] at hedge
    cases hedge

/-- Witness for C8: a single-point scanner produces no edges and makes the
matcher abort. -/
theorem claim_C8_witness :
    (build_graph { Scanner.init 1 with scans := [⟨1, 2, 3⟩] }).unique_edges_by_weight = [] ∧
    find_subgraph_isomorphism c3A
      (build_graph { Scanner.init 1 with scans := [⟨1, 2, 3⟩] }) = none :=
  claim_C8_matcher_requires_edges c3A { Scanner.init 1 with scans := [⟨1, 2, 3⟩] }
    (by decide)

theorem delta_translated (s1scans : List Point3) (s2a : Scanner) (i01 i02 : Nat) :
    delta (lget Point3.zero s1scans i01)
        (get_scan (translated s1scans s2a i01 i02) i02) =
      ⟨-s2a.translation.x, -s2a.translation.y, -s2a.translation.z⟩ := by
  unfold translated set_translation get_scan
  simp only
  obtain ⟨ax, ay, az⟩ := lget Point3.zero s1scans i01
  obtain ⟨mvx, mvy, mvz⟩ := mat_vec s2a.rotation_matrix (lget Point3.zero s2a.scans i02)
  obtain ⟨tx, ty, tz⟩ := s2a.translation
  simp only [point_add, delta, Point3.mk.injEq]
  refine ⟨by ring, by ring, by ring⟩

/-- Claim C9: the transform solver implicitly requires scanner02's
translation to be zero at entry.  With any nonzero entry translation the
run never succeeds (the final exact-equality check fails at the very
correspondence used for translation recovery, or an earlier assert fired
already); with zero entry translation the recovered translation puts the
rotated scanner02 point used for recovery exactly onto its scanner01
point, whatever rotation matrix was recovered. -/
theorem claim_C9_requires_zero_translation (s1 s2 : Scanner)
    (m : List (Nat × Nat)) :
    (s2.translation ≠ Point3.zero → orient_02_to_01 s1 s2 m = none) ∧
    (∀ (R : Mat3) (i01 i02 : Nat), s2.translation = Point3.zero →
      get_scan (translated s1.scans (set_rotation s2 R) i01 i02) i02 =
        lget Point3.zero s1.scans i01) := by
  constructor
  · intro hne
    unfold orient_02_to_01
    cases hx : find_row_x s1.scans s2.scans m with
    | none => rfl
    | some r0 =>
        cases hy : find_row_y s1.scans s2.scans m with
        | none => rfl
        | some r1 =>
            cases hz : find_row_z s1.scans s2.scans m with
            | none => rfl
            | some r2 =>
                cases m with
                | nil => rfl
                | cons hd tl =>
                    obtain ⟨i01, i02⟩ := hd
                    simp only
                    rw [if_neg]
                    intro hall
                    have hhd := List.all_eq_true.mp hall (i01, i02)
                      (List.mem_cons_self _ _)
                    have hd2 := of_decide_eq_true hhd
                    rw [delta_translated] at hd2
                    apply hne
                    simp only [set_rotation, Point3.zero, Point3.mk.injEq] at hd2
                    obtain ⟨h1, h2, h3⟩ := hd2
                    have e1 : s2.translation.x = 0 := by omega
                    have e2 : s2.translation.y = 0 := by omega
                    have e3 : s2.translation.z = 0 := by omega
                    calc s2.translation
                        = ⟨s2.translation.x, s2.translation.y, s2.translation.z⟩ := rfl
                      _ = Point3.zero := by rw [e1, e2, e3]; rfl
  · intro R i01 i02 ht
    have hd := delta_translated s1.scans (set_rotation s2 R) i01 i02
    have ht2 : (set_rotation s2 R).translation = s2.translation := rfl
    rw [ht2, ht] at hd
    set a := lget Point3.zero s1.scans i01 with ha
    set g := get_scan (translated s1.scans (set_rotation s2 R) i01 i02) i02 with hg
    simp only [delta, Point3.zero, Point3.mk.injEq] at hd
    obtain ⟨h1, h2, h3⟩ := hd
    calc g = ⟨g.x, g.y, g.z⟩ := rfl
      _ = ⟨a.x, a.y, a.z⟩ := by
          have e1 : g.x = a.x := by omega
          have e2 : g.y = a.y := by omega
          have e3 : g.z = a.z := by omega
          rw [e1, e2, e3]
      _ = a := rfl

/-- Witness for C9: on the concrete scanners `c6A` and `c9B` (entry
translation (1,0,0)) the solver aborts. -/
theorem claim_C9_witness : orient_02_to_01 c6A c9B c6m = none :=
  (claim_C9_requires_zero_translation c6A c9B c6m).1 (by decide)

/-- Counterexample to claim C6 as stated: on scanners `c6A`, `c6B` with
the swap correspondence, no pair of mapped correspondences has an x delta
whose magnitude is strictly larger than the other two deltas (the deltas
are 0 or (2, 5, 7) up to sign), so by the claim the solver would have to
fail by assertion; instead it succeeds: the code only requires the x
delta to be nonzero and distinct in magnitude from the other two. -/
theorem claim_C6_counterexample :
    (orient_02_to_01 c6A c6B c6m).isSome = true ∧
    ∀ pq ∈ map_pairs c6m,
      ¬(|(delta01 c6A.scans pq).y| < |(delta01 c6A.scans pq).x| ∧
        |(delta01 c6A.scans pq).z| < |(delta01 c6A.scans pq).x|) := by
  refine ⟨by decide, by decide⟩

theorem find_row_x_none {scansA scansB : List Point3} {m : List (Nat × Nat)}
    (h : ∀ pq ∈ map_pairs m, qualifies_x scansA pq = false) :
    find_row_x scansA scansB m = none := by
  unfold find_row_x
  have hf : (map_pairs m).find? (qualifies_x scansA) = none :=
    List.find?_eq_none.mpr (fun x hx => by simp [h x hx])
  rw [hf]

theorem find_row_y_none {scansA scansB : List Point3} {m : List (Nat × Nat)}
    (h : ∀ pq ∈ map_pairs m, qualifies_y scansA pq = false) :
    find_row_y scansA scansB m = none := by
  unfold find_row_y
  have hf : (map_pairs m).find? (qualifies_y scansA) = none :=
    List.find?_eq_none.mpr (fun x hx => by simp [h x hx])
  rw [hf]

theorem find_row_z_none {scansA scansB : List Point3} {m : List (Nat × Nat)}
    (h : ∀ pq ∈ map_pairs m, qualifies_z scansA pq = false) :
    find_row_z scansA scansB m = none := by
  unfold find_row_z
  have hf : (map_pairs m).find? (qualifies_z scansA) = none :=
    List.find?_eq_none.mpr (fun x hx => by simp [h x hx])
  rw [hf]

theorem orient_none_of_row_none {s1 s2 : Scanner} {m : List (Nat × Nat)}
    (h : find_row_x s1.scans s2.scans m = none ∨
      find_row_y s1.scans s2.scans m = none ∨
      find_row_z s1.scans s2.scans m = none) :
    orient_02_to_01 s1 s2 m = none := by
  unfold orient_02_to_01
  cases hx : find_row_x s1.scans s2.scans m with
  | none => rfl
  | some r0 =>
      cases hy : find_row_y s1.scans s2.scans m with
      | none => rfl
      | some r1 =>
          cases hz : find_row_z s1.scans s2.scans m with
          | none => rfl
          | some r2 =>
              exfalso
              rcases h with h | h | h
              · rw [hx] at h; cases h
              · rw [hy] at h; cases h
              · rw [hz] at h; cases h

theorem orient_some_rows {s1 s2 : Scanner} {m : List (Nat × Nat)}
    {r : Scanner × Scanner} (h : orient_02_to_01 s1 s2 m = some r) :
    (∃ r0, find_row_x s1.scans s2.scans m = some r0) ∧
    (∃ r1, find_row_y s1.scans s2.scans m = some r1) ∧
    (∃ r2, find_row_z s1.scans s2.scans m = some r2) := by
  unfold orient_02_to_01 at h
  cases hx : find_row_x s1.scans s2.scans m with
  | none => rw [hx] at h; cases h
  | some r0 =>
      cases hy : find_row_y s1.scans s2.scans m with
      | none => rw [hx, hy] at h; cases h
      | some r1 =>
          cases hz : find_row_z s1.scans s2.scans m with
          | none => rw [hx, hy, hz] at h; cases h
          | some r2 => exact ⟨⟨r0, rfl⟩, ⟨r1, rfl⟩, ⟨r2, rfl⟩⟩

theorem find_row_x_some_exists {scansA scansB : List Point3}
    {m : List (Nat × Nat)} {r : Point3}
    (h : find_row_x scansA scansB m = some r) :
    ∃ pq ∈ map_pairs m, qualifies_x scansA pq = true := by
  unfold find_row_x at h
  cases hf : (map_pairs m).find? (qualifies_x scansA) with
  | none => rw [hf] at h; cases h
  | some pq => exact ⟨pq, List.mem_of_find?_eq_some hf, List.find?_some hf⟩

theorem find_row_y_some_exists {scansA scansB : List Point3}
    {m : List (Nat × Nat)} {r : Point3}
    (h : find_row_y scansA scansB m = some r) :
    ∃ pq ∈ map_pairs m, qualifies_y scansA pq = true := by
  unfold find_row_y at h
  cases hf : (map_pairs m).find? (qualifies_y scansA) with
  | none => rw [hf] at h; cases h
  | some pq => exact ⟨pq, List.mem_of_find?_eq_some hf, List.find?_some hf⟩

theorem find_row_z_some_exists {scansA scansB : List Point3}
    {m : List (Nat × Nat)} {r : Point3}
    (h : find_row_z scansA scansB m = some r) :
    ∃ pq ∈ map_pairs m, qualifies_z scansA pq = true := by
  unfold find_row_z at h
  cases hf : (map_pairs m).find? (qualifies_z scansA) with
  | none => rw [hf] at h; cases h
  | some pq => exact ⟨pq, List.mem_of_find?_eq_some hf, List.find?_some hf⟩

/-- Claim C6 as amended: for each axis, rotation recovery uses the first
ordered pair of mapped correspondences (restricted to pairs whose outer
correspondence has i01 distinct from i02) whose A-frame delta along that
axis is nonzero and distinct in magnitude from the pair's other two
deltas — not necessarily larger.  The solver fails whenever some axis has
no such qualifying pair, and can only succeed when every axis has one
(it may still fail later, e.g. when the magnitude does not recur among
the B-frame deltas of the chosen pair). -/
theorem claim_C6_axis_guard (s1 s2 : Scanner) (m : List (Nat × Nat)) :
    (((∀ pq ∈ map_pairs m, qualifies_x s1.scans pq = false) ∨
      (∀ pq ∈ map_pairs m, qualifies_y s1.scans pq = false) ∨
      (∀ pq ∈ map_pairs m, qualifies_z s1.scans pq = false)) →
        orient_02_to_01 s1 s2 m = none) ∧
    (∀ r, orient_02_to_01 s1 s2 m = some r →
      (∃ pq ∈ map_pairs m, qualifies_x s1.scans pq = true) ∧
      (∃ pq ∈ map_pairs m, qualifies_y s1.scans pq = true) ∧
      (∃ pq ∈ map_pairs m, qualifies_z s1.scans pq = true)) := by
  constructor
  · intro h
    refine orient_none_of_row_none ?_
    rcases h with h | h | h
    · exact Or.inl (find_row_x_none h)
    · exact Or.inr (Or.inl (find_row_y_none h))
    · exact Or.inr (Or.inr (find_row_z_none h))
  · intro r h
    obtain ⟨⟨r0, h0⟩, ⟨r1, h1⟩, ⟨r2, h2⟩⟩ := orient_some_rows h
    exact ⟨find_row_x_some_exists h0, find_row_y_some_exists h1,
      find_row_z_some_exists h2⟩

/-- Witness for C6's amended theorem: with the singleton correspondence
(0,0) every ordered pair fails the guard (i01 equals i02), so the solver
aborts on it. -/
theorem claim_C6_witness : orient_02_to_01 c6A c6B [(0, 0)] = none :=
  (claim_C6_axis_guard c6A c6B [(0, 0)]).1 (Or.inl (by decide))

theorem merge_aux_transform :
    ∀ (qs : List Point3) (s : Scanner),
      (merge_aux s qs).rotation_matrix = s.rotation_matrix ∧
      (merge_aux s qs).translation = s.translation := by
  intro qs
  induction qs with
  | nil => intro s; exact ⟨rfl, rfl⟩
  | cons q rest ih =>
      intro s
      unfold merge_aux
      split
      · exact ih s
      · exact ih (add_scan s q)

theorem merge_transform (s1 s2 : Scanner) :
    (merge_02_into_01 s1 s2).rotation_matrix = s1.rotation_matrix ∧
    (merge_02_into_01 s1 s2).translation = s1.translation := by
  unfold merge_02_into_01
  exact merge_aux_transform (get_scans s2) s1

theorem orient_fst {s1 s2 : Scanner} {m : List (Nat × Nat)}
    {pr : Scanner × Scanner} (h : orient_02_to_01 s1 s2 m = some pr) :
    pr.1 = reset_translation (reset_rotation s1) := by
  unfold orient_02_to_01 at h
  cases hx : find_row_x s1.scans s2.scans m with
  | none => rw [hx] at h; cases h
  | some r0 =>
      cases hy : find_row_y s1.scans s2.scans m with
      | none => rw [hx, hy] at h; cases h
      | some r1 =>
          cases hz : find_row_z s1.scans s2.scans m with
          | none => rw [hx, hy, hz] at h; cases h
          | some r2 =>
              rw [hx, hy, hz] at h
              cases m with
              | nil => cases h
              | cons hd tl =>
                  obtain ⟨i01, i02⟩ := hd
                  simp only at h
                  split at h
                  · cases h; rfl
                  · cases h

/-- A scanner built from raw input (`Scanner.init`, then `add_scan`s,
then `build_graph`) keeps the identity transform; so does a deep copy. -/
theorem init_build_identity (s : Scanner) (h : identity_transform s)
    (p : Point3) (idx : Nat) :
    identity_transform (Scanner.init idx) ∧
    identity_transform (add_scan s p) ∧
    identity_transform (build_graph s) :=
  ⟨⟨rfl, rfl⟩, ⟨h.1, h.2⟩, ⟨h.1, h.2⟩⟩

theorem driver_step_identity {ref : Scanner} {wl : List Scanner}
    {pr : Scanner × List Scanner} (hid : identity_transform ref)
    (h : driver_step ref wl = some pr) : identity_transform pr.1 := by
  cases wl with
  | nil =>
      simp only [driver_step] at h
      cases h
      exact hid
  | cons w rest =>
      simp only [driver_step] at h
      split at h
      · cases h
      · split at h
        · split at h
          · cases h
          · rename_i iso hfind hlen refA wB horient
            split at h
            · cases h
              have h1 := merge_transform refA wB
              have h2 := orient_fst horient
              constructor
              · show (merge_02_into_01 refA wB).rotation_matrix = idMat
                rw [h1.1]
                show ((refA, wB).1).rotation_matrix = idMat
                rw [h2]; rfl
              · show (merge_02_into_01 refA wB).translation = Point3.zero
                rw [h1.2]
                show ((refA, wB).1).translation = Point3.zero
                rw [h2]; rfl
            · cases h
        · cases h
          exact hid

/-- Claim C10: throughout the driver's worklist loop the reference
scanner keeps the identity rotation and zero translation (it starts that
way and `orient_02_to_01` resets it on every successful alignment while
merging only appends points), so every point stored in the reference
scanner's local list is already expressed in reference-frame coordinates
(`get_scan` is the raw stored point). -/
theorem claim_C10_reference_identity :
    ∀ (n : Nat) (ref : Scanner) (wl : List Scanner)
      (r : Scanner × List Scanner),
      identity_transform ref → driver_run n ref wl = some r →
      identity_transform r.1 ∧
        ∀ i, get_scan r.1 i = lget Point3.zero r.1.scans i := by
  intro n
  induction n with
  | zero =>
      intro ref wl r hid h
      cases h
      exact ⟨hid, fun i => get_scan_identity ref hid i⟩
  | succ n ih =>
      intro ref wl r hid h
      cases wl with
      | nil =>
          cases h
          exact ⟨hid, fun i => get_scan_identity ref hid i⟩
      | cons w rest =>
          unfold driver_run at h
          cases hs : driver_step ref (w :: rest) with
          | none => rw [hs] at h; cases h
          | some pr =>
              rw [hs] at h
              simp only [Option.some_bind] at h
              exact ih pr.1 pr.2 r (driver_step_identity hid hs) h

/-- Witness for C10: a concrete run on an empty worklist. -/
theorem claim_C10_witness :
    identity_transform (c3A, ([] : List Scanner)).1 ∧
      get_scan (c3A, ([] : List Scanner)).1 0 =
        lget Point3.zero (c3A, ([] : List Scanner)).1.scans 0 := by
  have h := claim_C10_reference_identity 3 c3A [] (c3A, [])
    (by constructor <;> rfl) (by rfl)
  exact ⟨h.1, h.2 0⟩

/-!
Completeness properties of the two-pointer merge-join.
-/

theorem advance02_go_ge (bs : List Edge) (w : Int) :
    ∀ fuel i, i ≤ advance02_go bs w fuel i := by
  intro fuel
  induction fuel with
  | zero => intro i; exact Nat.le_refl i
  | succ fuel ih =>
      intro i
      unfold advance02_go
      split
      · split
        · exact Nat.le_trans (Nat.le_succ i) (ih (i + 1))
        · exact Nat.le_refl i
      · exact Nat.le_refl i

theorem advance02_go_skipped (bs : List Edge) (w : Int) :
    ∀ fuel i k, i ≤ k → k < advance02_go bs w fuel i →
      (lget Edge.default bs k).weight < w := by
  intro fuel
  induction fuel with
  | zero =>
      intro i k h1 h2
      unfold advance02_go at h2
      omega
  | succ fuel ih =>
      intro i k h1 h2
      unfold advance02_go at h2
      by_cases hrange : i + 1 < bs.length
      · rw [dif_pos hrange] at h2
        by_cases hwlt : (bs.get ⟨i, Nat.lt_of_succ_lt hrange⟩).weight < w
        · rw [if_pos hwlt] at h2
          rcases Nat.eq_or_lt_of_le h1 with rfl | hgt
          · rw [lget_eq_get Edge.default bs i (Nat.lt_of_succ_lt hrange)]
            exact hwlt
          · exact ih (i + 1) k hgt h2
        · rw [if_neg hwlt] at h2
          omega
      · rw [dif_neg hrange] at h2
        omega

theorem advance02_go_stop (bs : List Edge) (w : Int) :
    ∀ fuel i, i < bs.length → bs.length - 1 - i ≤ fuel →
      advance02_go bs w fuel i + 1 < bs.length →
      ¬((lget Edge.default bs (advance02_go bs w fuel i)).weight < w) := by
  intro fuel
  induction fuel with
  | zero =>
      intro i h1 h2 h3
      unfold advance02_go at h3
      omega
  | succ fuel ih =>
      intro i h1 h2 h3
      unfold advance02_go at h3 ⊢
      by_cases hrange : i + 1 < bs.length
      · rw [dif_pos hrange] at h3 ⊢
        by_cases hwlt : (bs.get ⟨i, Nat.lt_of_succ_lt hrange⟩).weight < w
        · rw [if_pos hwlt] at h3 ⊢
          exact ih (i + 1) hrange (by omega) h3
        · rw [if_neg hwlt]
          rw [lget_eq_get Edge.default bs i (Nat.lt_of_succ_lt hrange)]
          exact hwlt
      · rw [dif_neg hrange] at h3
        omega

theorem advance02_ge (bs : List Edge) (w : Int) (i : Nat) :
    i ≤ advance02 bs w i :=
  advance02_go_ge bs w bs.length i

theorem advance02_skipped (bs : List Edge) (w : Int) (i k : Nat) (h1 : i ≤ k)
    (h2 : k < advance02 bs w i) : (lget Edge.default bs k).weight < w :=
  advance02_go_skipped bs w bs.length i k h1 h2

theorem advance02_stop (bs : List Edge) (w : Int) (i : Nat) (h1 : i < bs.length)
    (h2 : advance02 bs w i + 1 < bs.length) :
    ¬((lget Edge.default bs (advance02 bs w i)).weight < w) :=
  advance02_go_stop bs w bs.length i h1 (by omega) h2

theorem pairwise_weight_mono {bs : List Edge} (hb : bs.Pairwise edge_le)
    {l1 l2 : Nat} (h12 : l1 < l2) (h2 : l2 < bs.length) :
    (lget Edge.default bs l1).weight ≤ (lget Edge.default bs l2).weight := by
  have h1 : l1 < bs.length := Nat.lt_trans h12 h2
  rw [lget_eq_get Edge.default bs l1 h1, lget_eq_get Edge.default bs l2 h2]
  exact List.pairwise_iff_get.mp hb ⟨l1, h1⟩ ⟨l2, h2⟩ h12

theorem matched_edges_aux_mem_lift (bs : List Edge) (a0 : Edge)
    (rest : List Edge) (i : Nat) {pr : Edge × Edge}
    (h : pr ∈ matched_edges_aux bs rest (advance02 bs a0.weight i)) :
    pr ∈ matched_edges_aux bs (a0 :: rest) i := by
  unfold matched_edges_aux
  simp only
  split
  · exact List.mem_cons_of_mem _ h
  · exact h

theorem mem_lget {α : Type} (d : α) :
    ∀ (l : List α) (b : α), b ∈ l → ∃ k, k < l.length ∧ lget d l k = b := by
  intro l
  induction l with
  | nil => intro b hb; cases hb
  | cons a t ih =>
      intro b hb
      rcases List.mem_cons.mp hb with rfl | hb'
      · exact ⟨0, Nat.succ_pos _, rfl⟩
      · obtain ⟨k, hk, hlk⟩ := ih b hb'
        exact ⟨k + 1, by simpa using Nat.succ_lt_succ hk, hlk⟩

theorem matched_aux_complete (bs : List Edge) (hb : bs.Pairwise edge_le) :
    ∀ (as : List Edge) (i : Nat), i < bs.length → as.Pairwise edge_le →
      (∀ a ∈ as, ∀ k, k < i → (lget Edge.default bs k).weight < a.weight) →
      ∀ a ∈ as, (∃ b ∈ bs, b.weight = a.weight) →
      ∃ k, k < bs.length ∧ (lget Edge.default bs k).weight = a.weight ∧
        (∀ l, l < k → (lget Edge.default bs l).weight ≠ a.weight) ∧
        (a, lget Edge.default bs k) ∈ matched_edges_aux bs as i := by
  intro as
  induction as with
  | nil => intro i _ _ _ a ha; cases ha
  | cons a0 rest ih =>
      intro i hi hsorted hinv a hmem hex
      have hpair := List.pairwise_cons.mp hsorted
      have hlt' : advance02 bs a0.weight i < bs.length :=
        advance02_lt bs a0.weight i hi
      have hbelow : ∀ l, l < advance02 bs a0.weight i →
          (lget Edge.default bs l).weight < a0.weight := by
        intro l hl
        by_cases hcase : l < i
        · exact hinv a0 (List.mem_cons_self a0 rest) l hcase
        · exact advance02_skipped bs a0.weight i l (Nat.le_of_not_lt hcase) hl
      rcases List.mem_cons.mp hmem with rfl | hmem'
      · obtain ⟨b, hbmem, hbw⟩ := hex
        obtain ⟨kb, hkblt, hkb⟩ := mem_lget Edge.default bs b hbmem
        have hkbw : (lget Edge.default bs kb).weight = a.weight := by
          rw [hkb]; exact hbw
        have hkb_ge : advance02 bs a.weight i ≤ kb := by
          by_contra hcon
          have hl := hbelow kb (Nat.lt_of_not_le hcon)
          omega
        have hweq : (lget Edge.default bs (advance02 bs a.weight i)).weight
            = a.weight := by
          rcases Nat.eq_or_lt_of_le hkb_ge with heq | hlt2
          · rw [heq]; exact hkbw
          · have hmono := pairwise_weight_mono hb hlt2 hkblt
            have hstop := advance02_stop bs a.weight i hi (by omega)
            omega
        refine ⟨advance02 bs a.weight i, hlt', hweq, ?_, ?_⟩
        · intro l hl
          have := hbelow l hl
          omega
        · unfold matched_edges_aux
          simp only
          rw [if_pos (by rw [hweq])]
          exact List.mem_cons_self _ _
      · have hinv' : ∀ a' ∈ rest, ∀ k, k < advance02 bs a0.weight i →
            (lget Edge.default bs k).weight < a'.weight := by
          intro a' ha' k hk
          have h1 : edge_le a0 a' := hpair.1 a' ha'
          have h2 := hbelow k hk
          unfold edge_le at h1
          omega
        obtain ⟨k, h1, h2, h3, h4⟩ := ih (advance02 bs a0.weight i) hlt'
          hpair.2 hinv' a hmem' hex
        exact ⟨k, h1, h2, h3, matched_edges_aux_mem_lift bs a0 rest i h4⟩

/-- Counterexample to claim C5 as stated: with both edge lists pre-sorted
ascending by weight, the pair of the weight-25 edge of `c5A` and the
second weight-25 edge of `c5B` has equal weights but is never enumerated
by the merge-join (each scanner01 edge is paired with at most one
scanner02 edge). -/
theorem claim_C5_counterexample :
    c5A.unique_edges_by_weight.Pairwise edge_le ∧
    c5B.unique_edges_by_weight.Pairwise edge_le ∧
    (⟨0, 1, 25⟩ : Edge) ∈ c5A.unique_edges_by_weight ∧
    (⟨0, 2, 25⟩ : Edge) ∈ c5B.unique_edges_by_weight ∧
    (⟨0, 1, 25⟩ : Edge).weight = (⟨0, 2, 25⟩ : Edge).weight ∧
    ((⟨0, 1, 25⟩ : Edge), (⟨0, 2, 25⟩ : Edge)) ∉
      matched_edges c5A.unique_edges_by_weight c5B.unique_edges_by_weight := by
  refine ⟨by decide, by decide, by decide, by decide, by decide, by decide⟩

/-- Claim C5 as amended: with both edge lists pre-sorted ascending by
weight, every pair emitted by the merge-join has equal weights (and comes
from the two lists), and every scanner01 edge whose weight occurs in
scanner02's list is enumerated exactly with the first scanner02 edge of
that weight — not with every equal-weight partner. -/
theorem claim_C5_merge_join (as bs : List Edge) (h0 : 0 < bs.length)
    (ha : as.Pairwise edge_le) (hb : bs.Pairwise edge_le) :
    (∀ pr ∈ matched_edges as bs,
      pr.1.weight = pr.2.weight ∧ pr.1 ∈ as ∧ pr.2 ∈ bs) ∧
    (∀ a ∈ as, (∃ b ∈ bs, b.weight = a.weight) →
      ∃ k, k < bs.length ∧ (lget Edge.default bs k).weight = a.weight ∧
        (∀ l, l < k → (lget Edge.default bs l).weight ≠ a.weight) ∧
        (a, lget Edge.default bs k) ∈ matched_edges as bs) := by
  constructor
  · exact matched_edges_sound h0
  · intro a hmem hex
    exact matched_aux_complete bs hb as 0 h0 ha
      (fun a' _ k hk => absurd hk (Nat.not_lt_zero k)) a hmem hex

/-- Witness for C5's amended theorem: on the concrete scanners the pair
of weight-25 edges that is emitted has equal weights and comes from the
two lists. -/
theorem claim_C5_witness :
    ((⟨0, 1, 25⟩ : Edge), (⟨0, 1, 25⟩ : Edge)).1.weight =
        ((⟨0, 1, 25⟩ : Edge), (⟨0, 1, 25⟩ : Edge)).2.weight ∧
    ((⟨0, 1, 25⟩ : Edge), (⟨0, 1, 25⟩ : Edge)).1 ∈ c5A.unique_edges_by_weight ∧
    ((⟨0, 1, 25⟩ : Edge), (⟨0, 1, 25⟩ : Edge)).2 ∈ c5B.unique_edges_by_weight :=
  (claim_C5_merge_join c5A.unique_edges_by_weight c5B.unique_edges_by_weight
    (by decide) (by decide) (by decide)).1
    ((⟨0, 1, 25⟩ : Edge), (⟨0, 1, 25⟩ : Edge)) (by decide)

/-- Counterexample to claim C2 as stated: `c2m` is a consistent
correspondence map of size 12 between `c2A` (13 points) and `c2B` (the
same 13 points in a rotated frame), the transform solver succeeds on it,
but the merge leaves the reference at 13 points while
|A| + |B| - |map| = 13 + 13 - 12 = 14: the thirteenth shared point was
deduplicated although it was not in the map, so the driver's
`assert scanner00.size() == expected_size` would fail here. -/
theorem claim_C2_counterexample :
    consistent_map c2A.graph c2B.graph c2m ∧
    c2m.length = 12 ∧
    (orient_02_to_01 c2A c2B c2m).map
        (fun pr => (merge_02_into_01 pr.1 pr.2).scans.length) = some 13 ∧
    (c2A.scans.length : Int) + (c2B.scans.length : Int) - (c2m.length : Int) = 14 := by
  refine ⟨by decide, by decide, by decide, by decide⟩

theorem merge_aux_length :
    ∀ (qs : List Point3) (s1 : Scanner), identity_transform s1 → qs.Nodup →
      (merge_aux s1 qs).scans.length +
          (qs.filter (fun q => decide (q ∈ s1.scans))).length =
        s1.scans.length + qs.length := by
  intro qs
  induction qs with
  | nil => intro s1 _ _; rfl
  | cons q rest ih =>
      intro s1 h1 h2
      obtain ⟨hqr, hrest⟩ := List.nodup_cons.mp h2
      unfold merge_aux
      by_cases hq : q ∈ get_scans s1
      · rw [if_pos hq]
        have hq' : q ∈ s1.scans := (mem_get_scans_identity s1 h1 q).mp hq
        rw [List.filter_cons_of_pos (by simpa using hq')]
        have := ih s1 h1 hrest
        simp only [List.length_cons]
        omega
      · rw [if_neg hq]
        have hq' : q ∉ s1.scans := fun hc =>
          hq ((mem_get_scans_identity s1 h1 q).mpr hc)
        rw [List.filter_cons_of_neg (by simpa using hq')]
        have hid' : identity_transform (add_scan s1 q) := ⟨h1.1, h1.2⟩
        have hcongr : rest.filter (fun r => decide (r ∈ (add_scan s1 q).scans)) =
            rest.filter (fun r => decide (r ∈ s1.scans)) := by
          refine List.filter_congr ?_
          intro r hr
          have hne : r ≠ q := fun hc => hqr (hc ▸ hr)
          show decide (r ∈ s1.scans ++ [q]) = decide (r ∈ s1.scans)
          have : (r ∈ s1.scans ++ [q]) ↔ (r ∈ s1.scans) := by
            rw [List.mem_append]
            constructor
            · intro hc
              rcases hc with hc | hc
              · exact hc
              · exact absurd (by simpa using hc) hne
            · exact Or.inl
          simp only [this]
        have := ih (add_scan s1 q) hid' hrest
        rw [hcongr] at this
        have hlen : (add_scan s1 q).scans.length = s1.scans.length + 1 := by
          show (s1.scans ++ [q]).length = s1.scans.length + 1
          simp
        simp only [List.length_cons]
        omega

/-- Claim C2 as amended: after a merge into a reference scanner with the
identity transform (the driver's invariant), and with scanner02's
transformed points pairwise distinct, the resulting point count satisfies
|after| + D = |A before| + |B|, where D counts the transformed scanner02
points already present among the reference scanner's points.  D equals
the correspondence map's size only when the map captures exactly the
coincident points; when the scanners share more points than the map
records (the counterexample above), the claimed law |after| =
|A| + |B| - |map| fails and the driver's self-check assertion fires. -/
theorem claim_C2_merge_size (s1 s2 : Scanner) (h1 : identity_transform s1)
    (h2 : (get_scans s2).Nodup) :
    (merge_02_into_01 s1 s2).scans.length +
        ((get_scans s2).filter (fun q => decide (q ∈ s1.scans))).length =
      s1.scans.length + s2.scans.length := by
  have hb : (merge_02_into_01 s1 s2).scans.length =
      (merge_aux s1 (get_scans s2)).scans.length := by
    show (sort_points (merge_aux s1 (get_scans s2)).scans).length = _
    exact length_sort_points _
  rw [hb]
  have := merge_aux_length (get_scans s2) s1 h1 h2
  rw [length_get_scans s2] at this
  exact this

/-- Witness for C2's amended theorem: merging the one-point scanner `c8B`
into the two-point reference `c3A` (no shared point) gives 3 + 0 = 2 + 1. -/
theorem claim_C2_witness :
    (merge_02_into_01 c3A c8B).scans.length +
        ((get_scans c8B).filter (fun q => decide (q ∈ c3A.scans))).length =
      c3A.scans.length + c8B.scans.length :=
  claim_C2_merge_size c3A c8B ⟨by decide, by decide⟩ (by decide)
